import Mathlib

/-!
Verification development for the geopandas spatial-join / overlay surface.

The repository ships only the gallery notebooks (`spatial_joins.ipynb`,
`overlays.ipynb`) that call `sjoin` and `overlay`; the engine code itself is
not part of the source tree.  Following the specification, the engines are
modelled here as executable Lean functions: geometries are rasterised to
finite sets of integer grid cells (each cell denoting the closed unit square
it spans), which realises the external geometry kernel's boolean set
operations and binary predicates with exact set semantics.
-/

namespace GeoPandas

/-- Modelled from the spec: the external geometry kernel is a black box
exposing geometries with boolean set operations.  A geometry is rasterised to
a finite set of integer grid cells; the cell `(x, y)` denotes the closed unit
square `[x, x+1] × [y, y+1]`, so adjacent cells touch without sharing a
cell. -/
abbrev Cell : Type := Int × Int

/-- Modelled from the spec: a geometry as held by the kernel, possibly empty. -/
abbrev Geometry : Type := Finset Cell

/-- Modelled from the spec: attribute values are scalars — number, text,
boolean, or null (§3). -/
inductive Value : Type where
  | num  (n : Int)
  | text (s : String)
  | bool (b : Bool)
  | null
deriving DecidableEq

/-- Modelled from the spec: the attribute mapping of one row, column name to
scalar value (§3). -/
abbrev Attrs : Type := List (String × Value)

/-- Modelled from the spec: one row of a GeometryCollection — a
(row_id, geometry, attributes) triple (§3). -/
structure Row : Type where
  row_id : Nat
  geom   : Geometry
  attrs  : Attrs
deriving DecidableEq

/-- Modelled from the spec: a GeometryCollection — an ordered sequence of rows
sharing one coordinate reference identifier (§3). -/
structure GeometryCollection : Type where
  crs  : String
  rows : List Row
deriving DecidableEq

/-- Modelled from the spec: one output row.  Each side's row_id and attributes
are kept separately with an explicit absence marker (`none`) for an unmatched
side (§3, OutputCollection); keeping the sides apart realises the
collision-suffix rule, since no column of one side can shadow the other. -/
structure OutRow : Type where
  geom        : Geometry
  left_id     : Option Nat
  right_id    : Option Nat
  left_attrs  : Option Attrs
  right_attrs : Option Attrs
deriving DecidableEq

/-- Modelled from the spec: the output of both engines (§3). -/
structure OutputCollection : Type where
  crs  : String
  rows : List OutRow
deriving DecidableEq

/-- Modelled from the spec: the closed enumeration of binary predicate names
exposed by the Geometry Predicate Adapter (§4.1). -/
inductive Pred : Type where
  | intersects
  | within
  | contains
  | crosses
  | touches
  | overlaps
deriving DecidableEq

/-- Modelled from the spec: string-keyed dispatch over predicate names;
unrecognized names yield `none` and are rejected at the boundary (§4.1, §9). -/
def parsePred (s : String) : Option Pred :=
  if s = "intersects" then some .intersects
  else if s = "within" then some .within
  else if s = "contains" then some .contains
  else if s = "crosses" then some .crosses
  else if s = "touches" then some .touches
  else if s = "overlaps" then some .overlaps
  else none

/-- The canonical name of a predicate, inverse of `parsePred`. -/
def Pred.name : Pred → String
  | .intersects => "intersects"
  | .within => "within"
  | .contains => "contains"
  | .crosses => "crosses"
  | .touches => "touches"
  | .overlaps => "overlaps"

/-- Two cells whose closed unit squares meet (Chebyshev distance at most 1). -/
def cellNear (c₁ c₂ : Cell) : Prop :=
  (c₁.1 - c₂.1).natAbs ≤ 1 ∧ (c₁.2 - c₂.2).natAbs ≤ 1

instance (c₁ c₂ : Cell) : Decidable (cellNear c₁ c₂) := by
  unfold cellNear; infer_instance

/-- Modelled from the spec: `evaluate(predicate_name, geom_a, geom_b) -> bool`
of the Geometry Predicate Adapter (§4.1), realised on rasterised geometries.
Any predicate against an empty geometry evaluates false.  In the rasterised
model every geometry is two-dimensional, so `crosses` coincides with
`overlaps` (for two areal geometries the kernel's crosses/overlaps both
require the interiors to meet with neither containing the other), and
`touches` holds when the closed extents meet in adjacent cells while no cell
is shared. -/
def evaluate : Pred → Geometry → Geometry → Bool
  | .intersects, g₁, g₂ => decide (g₁ ∩ g₂).Nonempty
  | .within,     g₁, g₂ => decide (g₁.Nonempty ∧ g₁ ⊆ g₂)
  | .contains,   g₁, g₂ => decide (g₂.Nonempty ∧ g₂ ⊆ g₁)
  | .crosses,    g₁, g₂ => decide ((g₁ ∩ g₂).Nonempty ∧ ¬g₁ ⊆ g₂ ∧ ¬g₂ ⊆ g₁)
  | .touches,    g₁, g₂ => decide ((g₁ ∩ g₂) = ∅ ∧ ∃ c₁ ∈ g₁, ∃ c₂ ∈ g₂, cellNear c₁ c₂)
  | .overlaps,   g₁, g₂ => decide ((g₁ ∩ g₂).Nonempty ∧ (g₁ \ g₂).Nonempty ∧ (g₂ \ g₁).Nonempty)

/-- Modelled from the spec: the axis-aligned BoundingBox of a geometry
(min_x, min_y, max_x, max_y), max ≥ min on each axis (§3). -/
structure BBox : Type where
  min_x : Int
  min_y : Int
  max_x : Int
  max_y : Int
deriving DecidableEq

/-- Modelled from the spec: the bounding box derived from a geometry; an empty
geometry has no box and participates in no predicate (§3, §4.2). -/
def bboxOf (g : Geometry) : Option BBox :=
  if h : g.Nonempty then
    some ⟨(g.image Prod.fst).min' (h.image _), (g.image Prod.snd).min' (h.image _),
          (g.image Prod.fst).max' (h.image _), (g.image Prod.snd).max' (h.image _)⟩
  else none

/-- Whether the closed extents `[min, max+1]` of two bounding boxes intersect
on both axes (cells denote closed unit squares, so the box spans one past the
maximal cell coordinate). -/
def boxIntersects (a b : BBox) : Bool :=
  decide (a.min_x ≤ b.max_x + 1 ∧ b.min_x ≤ a.max_x + 1 ∧
          a.min_y ≤ b.max_y + 1 ∧ b.min_y ≤ a.max_y + 1)

/-- Modelled from the spec: the Spatial Index over one collection (§4.2); for
faithfulness to the contract the index is the bulk-loaded list of rows with
their bounding boxes, and `queryIndex` returns the candidates whose box
intersects the query box, in original row order. -/
def buildIndex (rows : List Row) : List (Row × Option BBox) :=
  rows.map (fun r => (r, bboxOf r.geom))

/-- Modelled from the spec: `query(bbox)` — candidate rows whose bounding box
intersects the query box; over-inclusive by design, callers re-verify with
exact predicates (§4.2). -/
def queryIndex (idx : List (Row × Option BBox)) (qb : Option BBox) : List Row :=
  match qb with
  | none => []
  | some b =>
    (idx.filter (fun rb =>
      match rb.2 with
      | none => false
      | some rbb => boxIntersects b rbb)).map Prod.fst

/-- Modelled from the spec: the matches of one driving row — query the index
with the driving geometry's bounding box, then evaluate the exact predicate
against each candidate; all passing rows are collected, in the matched side's
original order (§4.3). -/
def matchRows (p : Pred) (idx : List (Row × Option BBox)) (drow : Row) : List Row :=
  (queryIndex idx (bboxOf drow.geom)).filter (fun r => evaluate p drow.geom r.geom)

/-- The matches of one driving row against the other side without the
bounding-box pre-filter: every row whose exact predicate passes. -/
def exactMatches (p : Pred) (others : List Row) (drow : Row) : List Row :=
  others.filter (fun r => evaluate p drow.geom r.geom)

/-- Modelled from the spec: the closed enumeration of join modes (§4.3). -/
inductive JoinHow : Type where
  | left
  | right
  | inner
deriving DecidableEq

/-- Modelled from the spec: string-keyed dispatch over join modes; unknown
values rejected at the boundary (§4.3, §9). -/
def parseJoinHow (s : String) : Option JoinHow :=
  if s = "left" then some .left
  else if s = "right" then some .right
  else if s = "inner" then some .inner
  else none

/-- Modelled from the spec: the error taxonomy of the Spatial Join Engine
(§4.3, §7). -/
inductive JoinError : Type where
  | crsMismatch
  | invalidJoinMode
  | unsupportedPredicate
deriving DecidableEq

/-- Output rows contributed by one driving left row under `left` semantics:
one row per matched pair, and for a zero-match driving row exactly one row
with the right side absent/null; the retained geometry is always the driving
(left) geometry (§4.3). -/
def leftRowOut (p : Pred) (idx : List (Row × Option BBox)) (lrow : Row) : List OutRow :=
  match matchRows p idx lrow with
  | [] => [⟨lrow.geom, some lrow.row_id, none, some lrow.attrs, none⟩]
  | ms => ms.map (fun r => ⟨lrow.geom, some lrow.row_id, some r.row_id, some lrow.attrs, some r.attrs⟩)

/-- Output rows contributed by one driving left row under `inner` semantics:
one row per matched pair, zero-match driving rows dropped entirely (§4.3). -/
def innerRowOut (p : Pred) (idx : List (Row × Option BBox)) (lrow : Row) : List OutRow :=
  (matchRows p idx lrow).map
    (fun r => ⟨lrow.geom, some lrow.row_id, some r.row_id, some lrow.attrs, some r.attrs⟩)

/-- Output rows contributed by one driving right row under `right` semantics:
roles swapped, the retained geometry is the right geometry, unmatched right
rows kept with the left side absent/null (§4.3). -/
def rightRowOut (p : Pred) (idx : List (Row × Option BBox)) (rrow : Row) : List OutRow :=
  match matchRows p idx rrow with
  | [] => [⟨rrow.geom, none, some rrow.row_id, none, some rrow.attrs⟩]
  | ms => ms.map (fun r => ⟨rrow.geom, some r.row_id, some rrow.row_id, some r.attrs, some rrow.attrs⟩)

/-- The join after all boundary validation has passed: build the index over
the non-driving side, scan the driving side in original order, and assemble
the output per the join semantics (§4.3).  For `right` the roles are swapped:
the index is built over `left` and the scan drives over `right`. -/
def sjoinChecked (left right : GeometryCollection) (p : Pred) (how : JoinHow) :
    OutputCollection :=
  match how with
  | .left  => ⟨left.crs, left.rows.flatMap (leftRowOut p (buildIndex right.rows))⟩
  | .inner => ⟨left.crs, left.rows.flatMap (innerRowOut p (buildIndex right.rows))⟩
  | .right => ⟨right.crs, right.rows.flatMap (rightRowOut p (buildIndex left.rows))⟩

/-- Modelled from the spec: `join(left, right, predicate_name, how)` (§4.3).
The coordinate-reference precondition is checked first, before any geometric
work (§3, §7); then the mode and the predicate name are validated at the
boundary; only then does the engine run.  On any failure no partial output
exists. -/
def sjoin (left right : GeometryCollection) (predName how : String) :
    Except JoinError OutputCollection :=
  if left.crs ≠ right.crs then .error .crsMismatch
  else
    match parseJoinHow how with
    | none => .error .invalidJoinMode
    | some h =>
      match parsePred predName with
      | none => .error .unsupportedPredicate
      | some p => .ok (sjoinChecked left right p h)

/-- Modelled from the spec: the notebook calls `sjoin` without the `op`
keyword; the predicate argument is optional and defaults to `intersects`
(`spatial_joins.ipynb`: "Any of the Shapely geometry methods that return a
Boolean can be used by specifying the `op` kwarg"). -/
def sjoinOpt (left right : GeometryCollection) (predName : Option String)
    (how : String) : Except JoinError OutputCollection :=
  sjoin left right (predName.getD "intersects") how

/-- Modelled from the spec: the closed enumeration of overlay modes (§4.4). -/
inductive OverlayHow : Type where
  | intersection
  | union
  | identity
  | symmetric_difference
  | difference
deriving DecidableEq

/-- Modelled from the spec: string-keyed dispatch over overlay modes (§4.4,
§9). -/
def parseOverlayHow (s : String) : Option OverlayHow :=
  if s = "intersection" then some .intersection
  else if s = "union" then some .union
  else if s = "identity" then some .identity
  else if s = "symmetric_difference" then some .symmetric_difference
  else if s = "difference" then some .difference
  else none

/-- Modelled from the spec: the error taxonomy of the Overlay Engine (§4.4,
§7).  In the rasterised model every geometry is polygonal and valid, so
`UnsupportedGeometryType` and `InvalidGeometry` cannot arise. -/
inductive OverlayError : Type where
  | crsMismatch
  | invalidOverlayMode
deriving DecidableEq

/-- The union of a list of geometries. -/
def unionAll (gs : List Geometry) : Geometry :=
  gs.foldr (· ∪ ·) ∅

/-- The union of all geometries of a collection's rows. -/
def collGeom (c : GeometryCollection) : Geometry :=
  unionAll (c.rows.map Row.geom)

/-- The union of all geometries of an output's rows. -/
def outGeom (o : OutputCollection) : Geometry :=
  unionAll (o.rows.map OutRow.geom)

/-- One intersection fragment: the pairwise intersection geometry with both
source row_ids and both sides' attributes (§4.4). -/
def mkInterFrag (r₁ r₂ : Row) : OutRow :=
  ⟨r₁.geom ∩ r₂.geom, some r₁.row_id, some r₂.row_id, some r₁.attrs, some r₂.attrs⟩

/-- Modelled from the spec: the `intersection` fragments — for each `df1` row
and each `df2` row whose geometries intersect, one fragment per non-empty
pairwise intersection, with both source row_ids and both sides' attributes
(§4.4).  The bounding-box pre-filter is an optional optimisation for overlay
(§9) and is omitted; in the rasterised model `intersects` holds exactly when
the pairwise intersection is non-empty. -/
def interFrags (df1 df2 : List Row) : List OutRow :=
  df1.flatMap fun r₁ => df2.flatMap fun r₂ =>
    if (r₁.geom ∩ r₂.geom).Nonempty then [mkInterFrag r₁ r₂] else []

/-- The accumulated union of all `df2` geometries intersecting a given `df1`
row's geometry (§4.4, `difference`). -/
def accumulatedUnion (r₁ : Row) (df2 : List Row) : Geometry :=
  unionAll ((df2.filter (fun r₂ => decide (r₁.geom ∩ r₂.geom).Nonempty)).map Row.geom)

/-- One difference fragment: a remainder geometry with only left-side
attributes, the right side absent (§4.4). -/
def mkDiffFrag (r₁ : Row) (g : Geometry) : OutRow :=
  ⟨g, some r₁.row_id, none, some r₁.attrs, none⟩

/-- Modelled from the spec: the `difference` fragments — for each `df1` row,
the union of all intersecting `df2` geometries is accumulated and subtracted;
non-empty remainders are emitted with only left-side attributes, rows with no
remaining area are dropped (§4.4). -/
def diffFrags (df1 df2 : List Row) : List OutRow :=
  df1.filterMap fun r₁ =>
    if (r₁.geom \ accumulatedUnion r₁ df2).Nonempty then
      some (mkDiffFrag r₁ (r₁.geom \ accumulatedUnion r₁ df2))
    else none

/-- The overlay after all boundary validation has passed, assembling the
fragments per mode: `union` is the `intersection` result followed by the two
`difference` results, `identity` the `intersection` result followed by
`difference(df1, df2)` only, `symmetric_difference` the two `difference`
results (§4.4, output order grouped by construction order). -/
def overlayChecked (df1 df2 : GeometryCollection) (how : OverlayHow) :
    OutputCollection :=
  match how with
  | .intersection => ⟨df1.crs, interFrags df1.rows df2.rows⟩
  | .difference => ⟨df1.crs, diffFrags df1.rows df2.rows⟩
  | .symmetric_difference =>
    ⟨df1.crs, diffFrags df1.rows df2.rows ++ diffFrags df2.rows df1.rows⟩
  | .union =>
    ⟨df1.crs, interFrags df1.rows df2.rows ++ diffFrags df1.rows df2.rows
      ++ diffFrags df2.rows df1.rows⟩
  | .identity =>
    ⟨df1.crs, interFrags df1.rows df2.rows ++ diffFrags df1.rows df2.rows⟩

/-- Modelled from the spec: `overlay(df1, df2, how)` (§4.4).  The
coordinate-reference precondition is checked first, before any geometric work
(§3, §7); then the mode is validated at the boundary; only then does the
engine run.  On any failure no partial output exists. -/
def overlay (df1 df2 : GeometryCollection) (how : String) :
    Except OverlayError OutputCollection :=
  if df1.crs ≠ df2.crs then .error .crsMismatch
  else
    match parseOverlayHow how with
    | none => .error .invalidOverlayMode
    | some h => .ok (overlayChecked df1 df2 h)

/-- The number of excess duplicate matches of a left-driven join: for each
left row, its matches beyond the first (a zero-match row contributes
nothing) — the amount by which row duplication can push the `left` output
beyond the left row count (§8). -/
def excessDuplicateMatches (left right : GeometryCollection) (p : Pred) : ℕ :=
  (left.rows.map (fun lr => (exactMatches p right.rows lr).length - 1)).sum

/-- Swap the attribute sides of an output row, keeping the geometry. -/
def swapSides (o : OutRow) : OutRow :=
  ⟨o.geom, o.right_id, o.left_id, o.right_attrs, o.left_attrs⟩

/-- A small concrete point-like collection: row 0 meets `sampleRight`'s only
row, row 1 meets nothing. -/
def sampleLeft : GeometryCollection :=
  ⟨"epsg4326", [⟨0, {((0 : Int), (0 : Int))}, [("v", Value.num 1)]⟩,
                ⟨1, {((5 : Int), (5 : Int))}, []⟩]⟩

/-- A small concrete polygonal collection with one two-cell row. -/
def sampleRight : GeometryCollection :=
  ⟨"epsg4326", [⟨0, {((0 : Int), (0 : Int)), ((1 : Int), (0 : Int))}, [("w", Value.num 2)]⟩]⟩

/-- A one-row one-cell collection, used to separate the two orders of the
`difference` overlay. -/
def sampleOne : GeometryCollection :=
  ⟨"epsg4326", [⟨0, {((0 : Int), (0 : Int))}, []⟩]⟩

/-- The empty collection on the same coordinate reference as `sampleOne`. -/
def sampleEmpty : GeometryCollection :=
  ⟨"epsg4326", []⟩

/-- A collection on a different coordinate reference system. -/
def sampleOther : GeometryCollection :=
  ⟨"epsg3857", [⟨0, {((0 : Int), (0 : Int))}, []⟩]⟩

/-! ### Kernel-level lemmas: the bounding-box filter is sound -/

lemma cellNear_refl (c : Cell) : cellNear c c := by
  simp [cellNear]

lemma parsePred_name (p : Pred) : parsePred p.name = some p := by
  cases p <;> rfl

/-- A true predicate exhibits a cell of each geometry with the two cells'
closed unit squares meeting; in particular both geometries are non-empty. -/
lemma evaluate_true_near {p : Pred} {g₁ g₂ : Geometry}
    (h : evaluate p g₁ g₂ = true) :
    ∃ c₁ ∈ g₁, ∃ c₂ ∈ g₂, cellNear c₁ c₂ := by
  cases p <;> simp only [evaluate, decide_eq_true_eq] at h
  case intersects =>
    obtain ⟨c, hc⟩ := h
    rw [Finset.mem_inter] at hc
    exact ⟨c, hc.1, c, hc.2, cellNear_refl c⟩
  case within =>
    obtain ⟨⟨c, hc⟩, hsub⟩ := h
    exact ⟨c, hc, c, hsub hc, cellNear_refl c⟩
  case contains =>
    obtain ⟨⟨c, hc⟩, hsub⟩ := h
    exact ⟨c, hsub hc, c, hc, cellNear_refl c⟩
  case crosses =>
    obtain ⟨⟨c, hc⟩, -, -⟩ := h
    rw [Finset.mem_inter] at hc
    exact ⟨c, hc.1, c, hc.2, cellNear_refl c⟩
  case touches =>
    obtain ⟨-, c₁, hc₁, c₂, hc₂, hn⟩ := h
    exact ⟨c₁, hc₁, c₂, hc₂, hn⟩
  case overlaps =>
    obtain ⟨⟨c, hc⟩, -, -⟩ := h
    rw [Finset.mem_inter] at hc
    exact ⟨c, hc.1, c, hc.2, cellNear_refl c⟩

/-- Any predicate against an empty left geometry evaluates false (§4.1). -/
lemma evaluate_empty_left (p : Pred) (g : Geometry) :
    evaluate p (∅ : Geometry) g = false := by
  cases hp : evaluate p (∅ : Geometry) g
  · rfl
  · obtain ⟨c, hc, -⟩ := evaluate_true_near hp
    exact absurd hc (Finset.not_mem_empty c)

lemma bboxOf_some_of_mem {g : Geometry} {c : Cell} (hc : c ∈ g) :
    ∃ b, bboxOf g = some b := by
  unfold bboxOf
  rw [dif_pos ⟨c, hc⟩]
  exact ⟨_, rfl⟩

lemma bboxOf_eq_none {g : Geometry} (h : bboxOf g = none) : g = ∅ := by
  by_contra hne
  obtain ⟨c, hc⟩ := Finset.nonempty_iff_ne_empty.mpr hne
  obtain ⟨b, hb⟩ := bboxOf_some_of_mem hc
  rw [hb] at h
  cases h

/-- Every cell of a geometry lies inside its bounding box. -/
lemma bboxOf_bounds {g : Geometry} {b : BBox} (hb : bboxOf g = some b)
    {c : Cell} (hc : c ∈ g) :
    b.min_x ≤ c.1 ∧ c.1 ≤ b.max_x ∧ b.min_y ≤ c.2 ∧ c.2 ≤ b.max_y := by
  unfold bboxOf at hb
  split at hb
  · cases hb
    exact ⟨Finset.min'_le _ _ (Finset.mem_image_of_mem _ hc),
           Finset.le_max' _ _ (Finset.mem_image_of_mem _ hc),
           Finset.min'_le _ _ (Finset.mem_image_of_mem _ hc),
           Finset.le_max' _ _ (Finset.mem_image_of_mem _ hc)⟩
  · cases hb

/-- Soundness of the pre-filter: two geometries holding cells whose closed
unit squares meet have intersecting (closed-extent) bounding boxes, so the
index never excludes a true match (§4.2). -/
lemma boxIntersects_of_near {g₁ g₂ : Geometry} {b₁ b₂ : BBox}
    (h₁ : bboxOf g₁ = some b₁) (h₂ : bboxOf g₂ = some b₂)
    {c₁ c₂ : Cell} (m₁ : c₁ ∈ g₁) (m₂ : c₂ ∈ g₂) (hn : cellNear c₁ c₂) :
    boxIntersects b₁ b₂ = true := by
  obtain ⟨a₁, a₂, a₃, a₄⟩ := bboxOf_bounds h₁ m₁
  obtain ⟨d₁, d₂, d₃, d₄⟩ := bboxOf_bounds h₂ m₂
  obtain ⟨n₁, n₂⟩ := hn
  simp only [boxIntersects, decide_eq_true_eq]
  omega

/-- The index-accelerated match set equals the exact match set: the
bounding-box filter is over-inclusive but never drops a true match, and the
exact predicate prunes the candidates back (§4.2, §4.3). -/
lemma matchRows_eq_exactMatches (p : Pred) (rs : List Row) (drow : Row) :
    matchRows p (buildIndex rs) drow = exactMatches p rs drow := by
  unfold matchRows exactMatches
  cases hdb : bboxOf drow.geom with
  | none =>
    have hg : drow.geom = ∅ := bboxOf_eq_none hdb
    simp [queryIndex, hg, evaluate_empty_left]
  | some db =>
    simp only [queryIndex, buildIndex]
    rw [List.filter_map, List.filter_filter, List.filter_map, List.map_map]
    have hfst : (Prod.fst ∘ fun r : Row => (r, bboxOf r.geom)) = id := rfl
    rw [hfst, List.map_id]
    apply List.filter_congr
    intro r _
    simp only [Function.comp_apply]
    cases he : evaluate p drow.geom r.geom
    · simp [he]
    · simp only [he, Bool.true_and]
      obtain ⟨c₁, m₁, c₂, m₂, hn⟩ := evaluate_true_near he
      obtain ⟨rb, hrb⟩ := bboxOf_some_of_mem m₂
      simp only [hrb]
      exact boxIntersects_of_near hdb hrb m₁ m₂ hn

/-! ### Join-engine lemmas -/

lemma sjoin_ok {left right : GeometryCollection} (hcrs : left.crs = right.crs)
    (hs : String) (h : JoinHow) (hh : parseJoinHow hs = some h) (p : Pred) :
    sjoin left right p.name hs = .ok (sjoinChecked left right p h) := by
  unfold sjoin
  rw [if_neg (fun hne => hne hcrs), hh, parsePred_name]

lemma length_leftRowOut (p : Pred) (idx : List (Row × Option BBox)) (lrow : Row) :
    (leftRowOut p idx lrow).length = max 1 (matchRows p idx lrow).length := by
  unfold leftRowOut
  cases h : matchRows p idx lrow with
  | nil => simp
  | cons a as => simp [List.length_map]

lemma leftRowOut_fields {p : Pred} {idx : List (Row × Option BBox)} {lrow : Row}
    {o : OutRow} (ho : o ∈ leftRowOut p idx lrow) :
    o.left_id = some lrow.row_id ∧ o.geom = lrow.geom := by
  unfold leftRowOut at ho
  cases h : matchRows p idx lrow with
  | nil =>
    rw [h] at ho
    simp only [List.mem_singleton] at ho
    subst ho
    exact ⟨rfl, rfl⟩
  | cons a as =>
    rw [h] at ho
    obtain ⟨r, -, rfl⟩ := List.mem_map.mp ho
    exact ⟨rfl, rfl⟩

lemma leftRowOut_ne_nil (p : Pred) (idx : List (Row × Option BBox)) (lrow : Row) :
    leftRowOut p idx lrow ≠ [] := by
  unfold leftRowOut
  cases h : matchRows p idx lrow with
  | nil => simp
  | cons a as => simp

lemma leftRowOut_of_no_match {p : Pred} {idx : List (Row × Option BBox)} {lrow : Row}
    (h : matchRows p idx lrow = []) :
    leftRowOut p idx lrow = [⟨lrow.geom, some lrow.row_id, none, some lrow.attrs, none⟩] := by
  unfold leftRowOut
  rw [h]

lemma innerRowOut_fields {p : Pred} {idx : List (Row × Option BBox)} {lrow : Row}
    {o : OutRow} (ho : o ∈ innerRowOut p idx lrow) :
    o.left_id = some lrow.row_id ∧ o.geom = lrow.geom := by
  obtain ⟨r, -, rfl⟩ := List.mem_map.mp ho
  exact ⟨rfl, rfl⟩

lemma rightRowOut_fields {p : Pred} {idx : List (Row × Option BBox)} {rrow : Row}
    {o : OutRow} (ho : o ∈ rightRowOut p idx rrow) :
    o.right_id = some rrow.row_id ∧ o.geom = rrow.geom := by
  unfold rightRowOut at ho
  cases h : matchRows p idx rrow with
  | nil =>
    rw [h] at ho
    simp only [List.mem_singleton] at ho
    subst ho
    exact ⟨rfl, rfl⟩
  | cons a as =>
    rw [h] at ho
    obtain ⟨r, -, rfl⟩ := List.mem_map.mp ho
    exact ⟨rfl, rfl⟩

lemma length_le_sum_lengths {α : Type} (f : α → ℕ) (l : List α)
    (h : ∀ a ∈ l, 1 ≤ f a) : l.length ≤ (l.map f).sum := by
  induction l with
  | nil => simp
  | cons a as ih =>
    simp only [List.map_cons, List.sum_cons, List.length_cons]
    have h₁ := h a (List.mem_cons_self a as)
    have h₂ := ih (fun x hx => h x (List.mem_cons_of_mem _ hx))
    omega

lemma sum_map_max_one {α : Type} (f : α → ℕ) (l : List α) :
    (l.map (fun a => max 1 (f a))).sum
      = l.length + (l.map (fun a => f a - 1)).sum := by
  induction l with
  | nil => rfl
  | cons a as ih =>
    simp only [List.map_cons, List.sum_cons, List.length_cons, ih]
    omega

/-- Each left row with a distinct row_id contributing exactly one passing
output row: the count of output rows carrying that row_id over the whole
flattened output is one. -/
lemma countP_flatMap_single {l : List Row} (hnd : (l.map Row.row_id).Nodup)
    {lrow : Row} (hmem : lrow ∈ l) (f : Row → List OutRow)
    (hid : ∀ r ∈ l, ∀ o ∈ f r, o.left_id = some r.row_id)
    (hone : (f lrow).length = 1) :
    List.countP (fun o => decide (o.left_id = some lrow.row_id)) (l.flatMap f) = 1 := by
  induction l with
  | nil => cases hmem
  | cons a as ih =>
    rw [List.flatMap_cons, List.countP_append]
    rw [List.map_cons, List.nodup_cons] at hnd
    rcases List.mem_cons.mp hmem with rfl | hmem'
    · have h₁ : List.countP (fun o => decide (o.left_id = some lrow.row_id)) (f lrow)
          = (f lrow).length := by
        apply List.countP_eq_length.mpr
        intro o ho
        simp [hid lrow (List.mem_cons_self _ _) o ho]
      have h₂ : List.countP (fun o => decide (o.left_id = some lrow.row_id))
          (as.flatMap f) = 0 := by
        apply List.countP_eq_zero.mpr
        intro o ho
        obtain ⟨r, hr, hor⟩ := List.mem_flatMap.mp ho
        have hne : r.row_id ≠ lrow.row_id := by
          intro he
          exact hnd.1 (he ▸ List.mem_map_of_mem Row.row_id hr)
        simp [hid r (List.mem_cons_of_mem _ hr) o hor, hne]
      rw [h₁, h₂, hone]
    · have h₁ : List.countP (fun o => decide (o.left_id = some lrow.row_id)) (f a) = 0 := by
        apply List.countP_eq_zero.mpr
        intro o ho
        have hne : a.row_id ≠ lrow.row_id := by
          intro he
          exact hnd.1 (he ▸ List.mem_map_of_mem Row.row_id hmem')
        simp [hid a (List.mem_cons_self _ _) o ho, hne]
      have h₂ := ih hnd.2 hmem' (fun r hr => hid r (List.mem_cons_of_mem _ hr))
      rw [h₁, h₂]

lemma length_innerRowOut (p : Pred) (idx : List (Row × Option BBox)) (lrow : Row) :
    (innerRowOut p idx lrow).length = (matchRows p idx lrow).length := by
  unfold innerRowOut
  exact List.length_map _ _

/-! ### Claim theorems on the join engine -/

/-- C1: for input collections with equal coordinate reference identifiers and
any supported predicate, `join(left, right, p, "left")` has at least
`len(left)` rows, every left row_id appears in it at least once, and each
left row with zero matches contributes exactly one output row whose right
side is absent/null. -/
theorem left_join_retains_all_left_rows (left right : GeometryCollection) (p : Pred)
    (hcrs : left.crs = right.crs) (hnd : (left.rows.map Row.row_id).Nodup) :
    ∃ out, sjoin left right p.name "left" = .ok out ∧
      left.rows.length ≤ out.rows.length ∧
      (∀ lrow ∈ left.rows, ∃ orow ∈ out.rows, orow.left_id = some lrow.row_id) ∧
      (∀ lrow ∈ left.rows, exactMatches p right.rows lrow = [] →
        List.countP (fun o => decide (o.left_id = some lrow.row_id)) out.rows = 1 ∧
        ∀ orow ∈ out.rows, orow.left_id = some lrow.row_id →
          orow.right_id = none ∧ orow.right_attrs = none) := by
  refine ⟨_, sjoin_ok hcrs "left" .left rfl p, ?_, ?_, ?_⟩
  · rw [sjoinChecked, List.length_flatMap]
    exact length_le_sum_lengths _ _
      (fun a _ => List.length_pos.mpr (leftRowOut_ne_nil p (buildIndex right.rows) a))
  · intro lrow hl
    obtain ⟨orow, ho⟩ := List.exists_mem_of_ne_nil _ (leftRowOut_ne_nil p (buildIndex right.rows) lrow)
    exact ⟨orow, List.mem_flatMap.mpr ⟨lrow, hl, ho⟩, (leftRowOut_fields ho).1⟩
  · intro lrow hl hz
    have hzm : matchRows p (buildIndex right.rows) lrow = [] := by
      rw [matchRows_eq_exactMatches]; exact hz
    constructor
    · exact countP_flatMap_single hnd hl _
        (fun r _ o ho => (leftRowOut_fields ho).1)
        (by rw [leftRowOut_of_no_match hzm]; rfl)
    · intro orow ho hid
      obtain ⟨lr, hlr, holr⟩ := List.mem_flatMap.mp ho
      have heq : lr = lrow := by
        apply List.inj_on_of_nodup_map hnd hlr hl
        have := (leftRowOut_fields holr).1
        rw [this] at hid
        exact Option.some.inj hid
      subst heq
      rw [leftRowOut_of_no_match hzm, List.mem_singleton] at holr
      subst holr
      exact ⟨rfl, rfl⟩

/-- C2: for input collections with equal coordinate reference identifiers and
any supported predicate, `join(left, right, p, "inner")` emits exactly one
output row per matched (left_row, right_row) pair satisfying the predicate,
and a left row with zero matches contributes no output row at all. -/
theorem inner_join_emits_exactly_matched_pairs (left right : GeometryCollection) (p : Pred)
    (hcrs : left.crs = right.crs) (hnd : (left.rows.map Row.row_id).Nodup) :
    ∃ out, sjoin left right p.name "inner" = .ok out ∧
      out.rows = left.rows.flatMap (fun lr => (exactMatches p right.rows lr).map
        (fun rr => ⟨lr.geom, some lr.row_id, some rr.row_id, some lr.attrs, some rr.attrs⟩)) ∧
      (∀ lrow ∈ left.rows, exactMatches p right.rows lrow = [] →
        ∀ orow ∈ out.rows, orow.left_id ≠ some lrow.row_id) := by
  refine ⟨_, sjoin_ok hcrs "inner" .inner rfl p, ?_, ?_⟩
  · show (left.rows.flatMap (innerRowOut p (buildIndex right.rows))) = _
    have hfe : innerRowOut p (buildIndex right.rows) = fun lr =>
        (exactMatches p right.rows lr).map
          (fun rr => ⟨lr.geom, some lr.row_id, some rr.row_id, some lr.attrs, some rr.attrs⟩) := by
      funext lr
      unfold innerRowOut
      rw [matchRows_eq_exactMatches]
    rw [hfe]
  · intro lrow hl hz orow ho hid
    obtain ⟨lr, hlr, holr⟩ := List.mem_flatMap.mp ho
    have heq : lr = lrow := by
      apply List.inj_on_of_nodup_map hnd hlr hl
      have := (innerRowOut_fields holr).1
      rw [this] at hid
      exact Option.some.inj hid
    subst heq
    have : innerRowOut p (buildIndex right.rows) lr = [] := by
      unfold innerRowOut
      rw [matchRows_eq_exactMatches, hz]
      rfl
    rw [this] at holr
    cases holr

/-- C8: for input collections with equal coordinate reference identifiers and
any supported predicate, the `inner` join's row count is at most the `left`
join's row count, which is at most the left row count plus the number of
excess duplicate matches. -/
theorem inner_le_left_le_excess (left right : GeometryCollection) (p : Pred)
    (hcrs : left.crs = right.crs) :
    ∃ outI outL, sjoin left right p.name "inner" = .ok outI ∧
      sjoin left right p.name "left" = .ok outL ∧
      outI.rows.length ≤ outL.rows.length ∧
      outL.rows.length ≤ left.rows.length + excessDuplicateMatches left right p := by
  refine ⟨_, _, sjoin_ok hcrs "inner" .inner rfl p, sjoin_ok hcrs "left" .left rfl p, ?_, ?_⟩
  · rw [sjoinChecked, sjoinChecked, List.length_flatMap, List.length_flatMap]
    apply List.sum_le_sum
    intro lr _
    simp only [Function.comp_apply, length_innerRowOut, length_leftRowOut]
    omega
  · rw [sjoinChecked, List.length_flatMap]
    have hmap : List.map (List.length ∘ leftRowOut p (buildIndex right.rows)) left.rows
        = List.map (fun lr => max 1 ((fun a => (exactMatches p right.rows a).length) lr))
            left.rows := by
      apply List.map_congr_left
      intro a _
      simp only [Function.comp_apply, length_leftRowOut, matchRows_eq_exactMatches]
    rw [hmap, sum_map_max_one]
    exact Nat.le_refl _

/-- C9: every join output row's geometry is exactly one of the two input
geometries, unaltered — the left geometry for `left`/`inner`, the right
geometry for `right`; the join only associates attributes. -/
theorem join_preserves_input_geometries (left right : GeometryCollection) (p : Pred)
    (hcrs : left.crs = right.crs) :
    ∃ outL outI outR,
      sjoin left right p.name "left" = .ok outL ∧
      sjoin left right p.name "inner" = .ok outI ∧
      sjoin left right p.name "right" = .ok outR ∧
      (∀ orow ∈ outL.rows, ∃ lr ∈ left.rows, orow.geom = lr.geom ∧ orow.left_id = some lr.row_id) ∧
      (∀ orow ∈ outI.rows, ∃ lr ∈ left.rows, orow.geom = lr.geom ∧ orow.left_id = some lr.row_id) ∧
      (∀ orow ∈ outR.rows, ∃ rr ∈ right.rows, orow.geom = rr.geom ∧ orow.right_id = some rr.row_id) := by
  refine ⟨_, _, _, sjoin_ok hcrs "left" .left rfl p, sjoin_ok hcrs "inner" .inner rfl p,
    sjoin_ok hcrs "right" .right rfl p, ?_, ?_, ?_⟩
  · intro orow ho
    obtain ⟨lr, hlr, holr⟩ := List.mem_flatMap.mp ho
    exact ⟨lr, hlr, (leftRowOut_fields holr).2, (leftRowOut_fields holr).1⟩
  · intro orow ho
    obtain ⟨lr, hlr, holr⟩ := List.mem_flatMap.mp ho
    exact ⟨lr, hlr, (innerRowOut_fields holr).2, (innerRowOut_fields holr).1⟩
  · intro orow ho
    obtain ⟨rr, hrr, horr⟩ := List.mem_flatMap.mp ho
    exact ⟨rr, hrr, (rightRowOut_fields horr).2, (rightRowOut_fields horr).1⟩

/-- C6: on input collections whose coordinate reference identifiers differ,
both `join` and `overlay` fail with `CrsMismatch` — a check performed before
any geometric work, for any predicate and mode strings — and the failure
carries no computed rows. -/
theorem crs_mismatch_rejected (left right : GeometryCollection)
    (pn hs os : String) (hne : left.crs ≠ right.crs) :
    sjoin left right pn hs = .error .crsMismatch ∧
    overlay left right os = .error .crsMismatch := by
  constructor
  · unfold sjoin
    rw [if_pos hne]
  · unfold overlay
    rw [if_pos hne]

/-- C7: with the coordinate-reference precondition satisfied, a `how` value
outside the join modes fails with `InvalidJoinMode`; with a valid mode, a
predicate name outside the supported set fails with `UnsupportedPredicate`;
and an overlay `how` outside the overlay modes fails with
`InvalidOverlayMode` — all rejected at the boundary, before geometry work. -/
theorem unknown_modes_rejected (left right : GeometryCollection)
    (pn hs os : String) (hcrs : left.crs = right.crs) :
    ((hs ≠ "left" ∧ hs ≠ "right" ∧ hs ≠ "inner") →
      sjoin left right pn hs = .error .invalidJoinMode) ∧
    ((∃ h, parseJoinHow hs = some h) →
      (pn ≠ "intersects" ∧ pn ≠ "within" ∧ pn ≠ "contains" ∧ pn ≠ "crosses" ∧
       pn ≠ "touches" ∧ pn ≠ "overlaps") →
      sjoin left right pn hs = .error .unsupportedPredicate) ∧
    ((os ≠ "intersection" ∧ os ≠ "union" ∧ os ≠ "identity" ∧
      os ≠ "symmetric_difference" ∧ os ≠ "difference") →
      overlay left right os = .error .invalidOverlayMode) := by
  refine ⟨?_, ?_, ?_⟩
  · rintro ⟨h₁, h₂, h₃⟩
    unfold sjoin
    rw [if_neg (fun hne => hne hcrs)]
    have hj : parseJoinHow hs = none := by
      unfold parseJoinHow
      rw [if_neg h₁, if_neg h₂, if_neg h₃]
    rw [hj]
  · rintro ⟨h, hh⟩ ⟨p₁, p₂, p₃, p₄, p₅, p₆⟩
    unfold sjoin
    rw [if_neg (fun hne => hne hcrs), hh]
    have hp : parsePred pn = none := by
      unfold parsePred
      rw [if_neg p₁, if_neg p₂, if_neg p₃, if_neg p₄, if_neg p₅, if_neg p₆]
    rw [hp]
  · rintro ⟨o₁, o₂, o₃, o₄, o₅⟩
    unfold overlay
    rw [if_neg (fun hne => hne hcrs)]
    have ho : parseOverlayHow os = none := by
      unfold parseOverlayHow
      rw [if_neg o₁, if_neg o₂, if_neg o₃, if_neg o₄, if_neg o₅]
    rw [ho]

/-- C10: calling the join without an explicit predicate behaves identically
to the same call with the `intersects` predicate — the omitted `op` argument
defaults to `intersects`. -/
theorem omitted_predicate_defaults_to_intersects
    (left right : GeometryCollection) (hs : String) :
    sjoinOpt left right none hs = sjoin left right "intersects" hs := rfl

/-! ### Overlay-engine lemmas -/

lemma overlay_ok {a b : GeometryCollection} (hcrs : a.crs = b.crs)
    (hs : String) (h : OverlayHow) (hh : parseOverlayHow hs = some h) :
    overlay a b hs = .ok (overlayChecked a b h) := by
  unfold overlay
  rw [if_neg (fun hne => hne hcrs), hh]

lemma mem_unionAll {c : Cell} {gs : List Geometry} :
    c ∈ unionAll gs ↔ ∃ g ∈ gs, c ∈ g := by
  induction gs with
  | nil => simp [unionAll]
  | cons g gs ih =>
    simp only [unionAll, List.foldr_cons, Finset.mem_union]
    constructor
    · rintro (hc | hc)
      · exact ⟨g, List.mem_cons_self _ _, hc⟩
      · obtain ⟨g', hg', hc'⟩ := ih.mp hc
        exact ⟨g', List.mem_cons_of_mem _ hg', hc'⟩
    · rintro ⟨g', hg', hc'⟩
      rcases List.mem_cons.mp hg' with rfl | hg'
      · exact Or.inl hc'
      · exact Or.inr (ih.mpr ⟨g', hg', hc'⟩)

lemma mem_rowsGeom {c : Cell} {rs : List Row} :
    c ∈ unionAll (rs.map Row.geom) ↔ ∃ r ∈ rs, c ∈ r.geom := by
  rw [mem_unionAll]
  constructor
  · rintro ⟨g, hg, hc⟩
    obtain ⟨r, hr, rfl⟩ := List.mem_map.mp hg
    exact ⟨r, hr, hc⟩
  · rintro ⟨r, hr, hc⟩
    exact ⟨r.geom, List.mem_map_of_mem _ hr, hc⟩

lemma mem_fragsGeom {c : Cell} {os : List OutRow} :
    c ∈ unionAll (os.map OutRow.geom) ↔ ∃ o ∈ os, c ∈ o.geom := by
  rw [mem_unionAll]
  constructor
  · rintro ⟨g, hg, hc⟩
    obtain ⟨o, ho, rfl⟩ := List.mem_map.mp hg
    exact ⟨o, ho, hc⟩
  · rintro ⟨o, ho, hc⟩
    exact ⟨o.geom, List.mem_map_of_mem _ ho, hc⟩

lemma mem_interFrags {A B : List Row} {o : OutRow} :
    o ∈ interFrags A B ↔ ∃ r₁ ∈ A, ∃ r₂ ∈ B,
      (r₁.geom ∩ r₂.geom).Nonempty ∧ o = mkInterFrag r₁ r₂ := by
  unfold interFrags
  simp only [List.mem_flatMap]
  constructor
  · rintro ⟨r₁, h₁, r₂, h₂, ho₂⟩
    by_cases hne : (r₁.geom ∩ r₂.geom).Nonempty
    · rw [if_pos hne] at ho₂
      simp only [List.mem_singleton] at ho₂
      exact ⟨r₁, h₁, r₂, h₂, hne, ho₂⟩
    · rw [if_neg hne] at ho₂
      cases ho₂
  · rintro ⟨r₁, h₁, r₂, h₂, hne, rfl⟩
    refine ⟨r₁, h₁, r₂, h₂, ?_⟩
    rw [if_pos hne]
    exact List.mem_singleton_self _

/-- Subtracting only the intersecting right-side geometries is the same as
subtracting the whole right-side union: a non-intersecting right geometry
removes nothing from the row anyway. -/
lemma sdiff_accumulatedUnion (r₁ : Row) (B : List Row) :
    r₁.geom \ accumulatedUnion r₁ B = r₁.geom \ unionAll (B.map Row.geom) := by
  ext c
  simp only [Finset.mem_sdiff, accumulatedUnion]
  constructor
  · rintro ⟨hc, hn⟩
    refine ⟨hc, fun hcB => hn ?_⟩
    obtain ⟨r₂, h₂, hc₂⟩ := mem_rowsGeom.mp hcB
    refine mem_rowsGeom.mp ?_ |> fun ⟨r', hr', hc'⟩ => mem_unionAll.mpr
      ⟨r'.geom, List.mem_map_of_mem _ hr', hc'⟩
    exact mem_rowsGeom.mpr
      ⟨r₂, List.mem_filter.mpr ⟨h₂, by
        simp only [decide_eq_true_eq]
        exact ⟨c, Finset.mem_inter.mpr ⟨hc, hc₂⟩⟩⟩, hc₂⟩
  · rintro ⟨hc, hn⟩
    refine ⟨hc, fun hcF => hn ?_⟩
    obtain ⟨r₂, h₂, hc₂⟩ := mem_rowsGeom.mp hcF
    exact mem_rowsGeom.mpr ⟨r₂, (List.mem_filter.mp h₂).1, hc₂⟩

lemma mem_diffFrags {A B : List Row} {o : OutRow} :
    o ∈ diffFrags A B ↔ ∃ r₁ ∈ A,
      (r₁.geom \ unionAll (B.map Row.geom)).Nonempty ∧
      o = mkDiffFrag r₁ (r₁.geom \ unionAll (B.map Row.geom)) := by
  unfold diffFrags
  rw [List.mem_filterMap]
  constructor
  · rintro ⟨r₁, h₁, hf⟩
    rw [sdiff_accumulatedUnion] at hf
    by_cases hne : (r₁.geom \ unionAll (B.map Row.geom)).Nonempty
    · rw [if_pos hne] at hf
      exact ⟨r₁, h₁, hne, (Option.some.inj hf).symm⟩
    · rw [if_neg hne] at hf
      cases hf
  · rintro ⟨r₁, h₁, hne, rfl⟩
    refine ⟨r₁, h₁, ?_⟩
    rw [sdiff_accumulatedUnion, if_pos hne]

lemma outGeom_interFrags (A B : List Row) :
    unionAll ((interFrags A B).map OutRow.geom)
      = unionAll (A.map Row.geom) ∩ unionAll (B.map Row.geom) := by
  ext c
  rw [Finset.mem_inter, mem_fragsGeom, mem_rowsGeom, mem_rowsGeom]
  constructor
  · rintro ⟨o, ho, hc⟩
    obtain ⟨r₁, h₁, r₂, h₂, hne, rfl⟩ := mem_interFrags.mp ho
    rw [mkInterFrag] at hc
    simp only [Finset.mem_inter] at hc
    exact ⟨⟨r₁, h₁, hc.1⟩, ⟨r₂, h₂, hc.2⟩⟩
  · rintro ⟨⟨r₁, h₁, hc₁⟩, ⟨r₂, h₂, hc₂⟩⟩
    have hcm : c ∈ r₁.geom ∩ r₂.geom := Finset.mem_inter.mpr ⟨hc₁, hc₂⟩
    exact ⟨mkInterFrag r₁ r₂, mem_interFrags.mpr ⟨r₁, h₁, r₂, h₂, ⟨c, hcm⟩, rfl⟩, hcm⟩

lemma outGeom_diffFrags (A B : List Row) :
    unionAll ((diffFrags A B).map OutRow.geom)
      = unionAll (A.map Row.geom) \ unionAll (B.map Row.geom) := by
  ext c
  rw [Finset.mem_sdiff, mem_fragsGeom, mem_rowsGeom]
  constructor
  · rintro ⟨o, ho, hc⟩
    obtain ⟨r₁, h₁, hne, rfl⟩ := mem_diffFrags.mp ho
    rw [mkDiffFrag] at hc
    simp only [Finset.mem_sdiff] at hc
    exact ⟨⟨r₁, h₁, hc.1⟩, hc.2⟩
  · rintro ⟨⟨r₁, h₁, hc₁⟩, hcB⟩
    have hcd : c ∈ r₁.geom \ unionAll (B.map Row.geom) :=
      Finset.mem_sdiff.mpr ⟨hc₁, hcB⟩
    exact ⟨mkDiffFrag r₁ (r₁.geom \ unionAll (B.map Row.geom)),
      mem_diffFrags.mpr ⟨r₁, h₁, ⟨c, hcd⟩, rfl⟩, hcd⟩

lemma unionAll_append (xs ys : List Geometry) :
    unionAll (xs ++ ys) = unionAll xs ∪ unionAll ys := by
  ext c
  simp only [Finset.mem_union, mem_unionAll, List.mem_append]
  constructor
  · rintro ⟨g, (hg | hg), hc⟩
    · exact Or.inl ⟨g, hg, hc⟩
    · exact Or.inr ⟨g, hg, hc⟩
  · rintro (⟨g, hg, hc⟩ | ⟨g, hg, hc⟩)
    · exact ⟨g, Or.inl hg, hc⟩
    · exact ⟨g, Or.inr hg, hc⟩

lemma swapSides_mkInterFrag (r₁ r₂ : Row) :
    swapSides (mkInterFrag r₁ r₂) = mkInterFrag r₂ r₁ := by
  unfold swapSides mkInterFrag
  rw [Finset.inter_comm]

/-- Symmetry of the intersection fragments: swapping the attribute sides of
`interFrags A B` yields, as a multiset, exactly `interFrags B A` — the same
fragments, produced in the transposed scan order. -/
lemma interFrags_swap (A B : List Row) :
    (↑((interFrags A B).map swapSides) : Multiset OutRow) = ↑(interFrags B A) := by
  unfold interFrags
  rw [List.map_flatMap]
  have hinner : (fun r₁ => List.map swapSides (B.flatMap fun r₂ =>
        if (r₁.geom ∩ r₂.geom).Nonempty then [mkInterFrag r₁ r₂] else []))
      = (fun r₁ => B.flatMap fun r₂ =>
        if (r₂.geom ∩ r₁.geom).Nonempty then [mkInterFrag r₂ r₁] else []) := by
    funext r₁
    rw [List.map_flatMap]
    have hpt : (fun r₂ => List.map swapSides
          (if (r₁.geom ∩ r₂.geom).Nonempty then [mkInterFrag r₁ r₂] else []))
        = (fun r₂ => if (r₂.geom ∩ r₁.geom).Nonempty then [mkInterFrag r₂ r₁] else []) := by
      funext r₂
      rw [Finset.inter_comm r₂.geom r₁.geom]
      by_cases hne : (r₁.geom ∩ r₂.geom).Nonempty
      · rw [if_pos hne, if_pos hne]
        simp [swapSides_mkInterFrag]
      · rw [if_neg hne, if_neg hne]
        rfl
    rw [hpt]
  rw [hinner]
  calc (↑(A.flatMap fun r₁ => B.flatMap fun r₂ =>
          if (r₂.geom ∩ r₁.geom).Nonempty then [mkInterFrag r₂ r₁] else []) : Multiset OutRow)
      = (↑A : Multiset Row).bind (fun r₁ => ↑(B.flatMap fun r₂ =>
          if (r₂.geom ∩ r₁.geom).Nonempty then [mkInterFrag r₂ r₁] else [])) :=
        (Multiset.coe_bind _ _).symm
    _ = (↑A : Multiset Row).bind (fun r₁ => (↑B : Multiset Row).bind fun r₂ =>
          ↑(if (r₂.geom ∩ r₁.geom).Nonempty then [mkInterFrag r₂ r₁] else [])) :=
        Multiset.bind_congr (fun r₁ _ => (Multiset.coe_bind _ _).symm)
    _ = (↑B : Multiset Row).bind (fun r₂ => (↑A : Multiset Row).bind fun r₁ =>
          ↑(if (r₂.geom ∩ r₁.geom).Nonempty then [mkInterFrag r₂ r₁] else [])) :=
        Multiset.bind_bind _ _
    _ = (↑B : Multiset Row).bind (fun r₂ => ↑(A.flatMap fun r₁ =>
          if (r₂.geom ∩ r₁.geom).Nonempty then [mkInterFrag r₂ r₁] else [])) :=
        Multiset.bind_congr (fun r₂ _ => Multiset.coe_bind _ _)
    _ = ↑(B.flatMap fun r₂ => A.flatMap fun r₁ =>
          if (r₂.geom ∩ r₁.geom).Nonempty then [mkInterFrag r₂ r₁] else []) :=
        Multiset.coe_bind _ _

/-! ### Claim theorems on the overlay engine -/

/-- C3: the geometries from the `intersection`, `difference(a,b)` and
`difference(b,a)` overlays are pairwise non-overlapping, their union is the
geometry of the `union` overlay — which covers every region of both inputs —
and the `union` mode's output rows are exactly the three result sets
concatenated. -/
theorem overlay_partition_law (a b : GeometryCollection) (hcrs : a.crs = b.crs) :
    ∃ oi od₁ od₂ ou,
      overlay a b "intersection" = .ok oi ∧
      overlay a b "difference" = .ok od₁ ∧
      overlay b a "difference" = .ok od₂ ∧
      overlay a b "union" = .ok ou ∧
      outGeom oi ∩ outGeom od₁ = ∅ ∧
      outGeom oi ∩ outGeom od₂ = ∅ ∧
      outGeom od₁ ∩ outGeom od₂ = ∅ ∧
      outGeom oi ∪ outGeom od₁ ∪ outGeom od₂ = outGeom ou ∧
      outGeom ou = collGeom a ∪ collGeom b ∧
      ou.rows = oi.rows ++ od₁.rows ++ od₂.rows := by
  refine ⟨_, _, _, _, overlay_ok hcrs "intersection" .intersection rfl,
    overlay_ok hcrs "difference" .difference rfl,
    overlay_ok hcrs.symm "difference" .difference rfl,
    overlay_ok hcrs "union" .union rfl, ?_, ?_, ?_, ?_, ?_, rfl⟩
  · rw [show outGeom (overlayChecked a b .intersection)
          = collGeom a ∩ collGeom b from outGeom_interFrags a.rows b.rows,
        show outGeom (overlayChecked a b .difference)
          = collGeom a \ collGeom b from outGeom_diffFrags a.rows b.rows]
    ext c
    simp only [Finset.mem_inter, Finset.mem_sdiff, Finset.not_mem_empty, iff_false]
    tauto
  · rw [show outGeom (overlayChecked a b .intersection)
          = collGeom a ∩ collGeom b from outGeom_interFrags a.rows b.rows,
        show outGeom (overlayChecked b a .difference)
          = collGeom b \ collGeom a from outGeom_diffFrags b.rows a.rows]
    ext c
    simp only [Finset.mem_inter, Finset.mem_sdiff, Finset.not_mem_empty, iff_false]
    tauto
  · rw [show outGeom (overlayChecked a b .difference)
          = collGeom a \ collGeom b from outGeom_diffFrags a.rows b.rows,
        show outGeom (overlayChecked b a .difference)
          = collGeom b \ collGeom a from outGeom_diffFrags b.rows a.rows]
    ext c
    simp only [Finset.mem_inter, Finset.mem_sdiff, Finset.not_mem_empty, iff_false]
    tauto
  · rw [show outGeom (overlayChecked a b .union)
          = (collGeom a ∩ collGeom b) ∪ (collGeom a \ collGeom b)
              ∪ (collGeom b \ collGeom a) from ?_]
    · rw [show outGeom (overlayChecked a b .intersection)
            = collGeom a ∩ collGeom b from outGeom_interFrags a.rows b.rows,
          show outGeom (overlayChecked a b .difference)
            = collGeom a \ collGeom b from outGeom_diffFrags a.rows b.rows,
          show outGeom (overlayChecked b a .difference)
            = collGeom b \ collGeom a from outGeom_diffFrags b.rows a.rows]
    · show unionAll ((interFrags a.rows b.rows ++ diffFrags a.rows b.rows
          ++ diffFrags b.rows a.rows).map OutRow.geom) = _
      rw [List.map_append, List.map_append, unionAll_append, unionAll_append,
        outGeom_interFrags, outGeom_diffFrags, outGeom_diffFrags]
      rfl
  · rw [show outGeom (overlayChecked a b .union)
          = (collGeom a ∩ collGeom b) ∪ (collGeom a \ collGeom b)
              ∪ (collGeom b \ collGeom a) from ?_]
    · ext c
      simp only [Finset.mem_union, Finset.mem_inter, Finset.mem_sdiff]
      tauto
    · show unionAll ((interFrags a.rows b.rows ++ diffFrags a.rows b.rows
          ++ diffFrags b.rows a.rows).map OutRow.geom) = _
      rw [List.map_append, List.map_append, unionAll_append, unionAll_append,
        outGeom_interFrags, outGeom_diffFrags, outGeom_diffFrags]
      rfl

/-- C4: `overlay(a, b, "identity")` is the union of the `intersection` result
and the `difference(a,b)` result: its geometries cover exactly the extent of
`a`, each row either carries `b`'s attributes and lies inside `b`'s extent,
or carries no right side and is disjoint from `b`'s extent — every `b`-only
region is excluded. -/
theorem overlay_identity_covers_left (a b : GeometryCollection) (hcrs : a.crs = b.crs) :
    ∃ oid oi od,
      overlay a b "identity" = .ok oid ∧
      overlay a b "intersection" = .ok oi ∧
      overlay a b "difference" = .ok od ∧
      oid.rows = oi.rows ++ od.rows ∧
      outGeom oid = collGeom a ∧
      (∀ orow ∈ oid.rows,
        (orow.right_attrs ≠ none ∧ orow.geom ⊆ collGeom b) ∨
        (orow.right_attrs = none ∧ orow.geom ∩ collGeom b = ∅)) := by
  refine ⟨_, _, _, overlay_ok hcrs "identity" .identity rfl,
    overlay_ok hcrs "intersection" .intersection rfl,
    overlay_ok hcrs "difference" .difference rfl, rfl, ?_, ?_⟩
  · show unionAll ((interFrags a.rows b.rows ++ diffFrags a.rows b.rows).map OutRow.geom) = _
    rw [List.map_append, unionAll_append, outGeom_interFrags, outGeom_diffFrags]
    ext c
    simp only [Finset.mem_union, Finset.mem_inter, Finset.mem_sdiff]
    tauto
  · intro orow ho
    rcases List.mem_append.mp ho with hoi | hod
    · left
      obtain ⟨r₁, h₁, r₂, h₂, hne, rfl⟩ := mem_interFrags.mp hoi
      constructor
      · simp [mkInterFrag]
      · intro c hc
        rw [mkInterFrag] at hc
        simp only [Finset.mem_inter] at hc
        exact mem_rowsGeom.mpr ⟨r₂, h₂, hc.2⟩
    · right
      obtain ⟨r₁, h₁, hne, rfl⟩ := mem_diffFrags.mp hod
      constructor
      · simp [mkDiffFrag]
      · ext c
        simp only [Finset.mem_inter, Finset.not_mem_empty, iff_false, mkDiffFrag,
          Finset.mem_sdiff]
        rintro ⟨⟨-, hnc⟩, hcb⟩
        exact hnc hcb

/-- C5: `overlay(a, b, "intersection")` equals `overlay(b, a, "intersection")`
geometry-wise up to swapping the attribute sides (as multisets of output
rows), whereas concrete inputs exist on which `overlay(a, b, "difference")`
differs from `overlay(b, a, "difference")`. -/
theorem overlay_intersection_symmetric_difference_not
    (a b : GeometryCollection) (hcrs : a.crs = b.crs) :
    (∃ o₁ o₂, overlay a b "intersection" = .ok o₁ ∧
      overlay b a "intersection" = .ok o₂ ∧
      (↑(o₁.rows.map swapSides) : Multiset OutRow) = (↑o₂.rows : Multiset OutRow)) ∧
    (∃ a' b' : GeometryCollection, a'.crs = b'.crs ∧
      overlay a' b' "difference" ≠ overlay b' a' "difference") := by
  constructor
  · exact ⟨_, _, overlay_ok hcrs "intersection" .intersection rfl,
      overlay_ok hcrs.symm "intersection" .intersection rfl,
      interFrags_swap a.rows b.rows⟩
  · refine ⟨sampleOne, sampleEmpty, rfl, ?_⟩
    intro hcontra
    have h₁ : overlay sampleOne sampleEmpty "difference"
        = .ok (overlayChecked sampleOne sampleEmpty .difference) :=
      overlay_ok (show sampleOne.crs = sampleEmpty.crs from rfl) "difference" .difference rfl
    have h₂ : overlay sampleEmpty sampleOne "difference"
        = .ok (overlayChecked sampleEmpty sampleOne .difference) :=
      overlay_ok (show sampleEmpty.crs = sampleOne.crs from rfl) "difference" .difference rfl
    rw [h₁, h₂] at hcontra
    have h₃ := Except.ok.inj hcontra
    have h₅ : (overlayChecked sampleOne sampleEmpty .difference).rows.length = 1 := rfl
    have h₆ : (overlayChecked sampleEmpty sampleOne .difference).rows.length = 0 := rfl
    rw [h₃, h₆] at h₅
    exact absurd h₅ (by decide)

/-! ### Witnesses: each hypothesis-carrying claim theorem applied to concrete
collections -/

/-- Witness for C1 on concrete collections. -/
theorem left_join_retains_all_left_rows_witness :
    sampleLeft.crs = sampleRight.crs ∧
    (sampleLeft.rows.map Row.row_id).Nodup ∧
    (∃ out, sjoin sampleLeft sampleRight Pred.intersects.name "left" = .ok out ∧
      sampleLeft.rows.length ≤ out.rows.length ∧
      (∀ lrow ∈ sampleLeft.rows, ∃ orow ∈ out.rows, orow.left_id = some lrow.row_id) ∧
      (∀ lrow ∈ sampleLeft.rows, exactMatches Pred.intersects sampleRight.rows lrow = [] →
        List.countP (fun o => decide (o.left_id = some lrow.row_id)) out.rows = 1 ∧
        ∀ orow ∈ out.rows, orow.left_id = some lrow.row_id →
          orow.right_id = none ∧ orow.right_attrs = none)) :=
  ⟨rfl, by decide,
    left_join_retains_all_left_rows sampleLeft sampleRight .intersects rfl (by decide)⟩

/-- Witness for C2 on concrete collections. -/
theorem inner_join_emits_exactly_matched_pairs_witness :
    sampleLeft.crs = sampleRight.crs ∧
    (sampleLeft.rows.map Row.row_id).Nodup ∧
    (∃ out, sjoin sampleLeft sampleRight Pred.intersects.name "inner" = .ok out ∧
      out.rows = sampleLeft.rows.flatMap (fun lr =>
        (exactMatches Pred.intersects sampleRight.rows lr).map
          (fun rr => ⟨lr.geom, some lr.row_id, some rr.row_id, some lr.attrs, some rr.attrs⟩)) ∧
      (∀ lrow ∈ sampleLeft.rows, exactMatches Pred.intersects sampleRight.rows lrow = [] →
        ∀ orow ∈ out.rows, orow.left_id ≠ some lrow.row_id)) :=
  ⟨rfl, by decide,
    inner_join_emits_exactly_matched_pairs sampleLeft sampleRight .intersects rfl (by decide)⟩

/-- Witness for C8 on concrete collections. -/
theorem inner_le_left_le_excess_witness :
    sampleLeft.crs = sampleRight.crs ∧
    (∃ outI outL, sjoin sampleLeft sampleRight Pred.intersects.name "inner" = .ok outI ∧
      sjoin sampleLeft sampleRight Pred.intersects.name "left" = .ok outL ∧
      outI.rows.length ≤ outL.rows.length ∧
      outL.rows.length ≤ sampleLeft.rows.length
        + excessDuplicateMatches sampleLeft sampleRight .intersects) :=
  ⟨rfl, inner_le_left_le_excess sampleLeft sampleRight .intersects rfl⟩

/-- Witness for C9 on concrete collections. -/
theorem join_preserves_input_geometries_witness :
    sampleLeft.crs = sampleRight.crs ∧
    (∃ outL outI outR,
      sjoin sampleLeft sampleRight Pred.intersects.name "left" = .ok outL ∧
      sjoin sampleLeft sampleRight Pred.intersects.name "inner" = .ok outI ∧
      sjoin sampleLeft sampleRight Pred.intersects.name "right" = .ok outR ∧
      (∀ orow ∈ outL.rows, ∃ lr ∈ sampleLeft.rows,
        orow.geom = lr.geom ∧ orow.left_id = some lr.row_id) ∧
      (∀ orow ∈ outI.rows, ∃ lr ∈ sampleLeft.rows,
        orow.geom = lr.geom ∧ orow.left_id = some lr.row_id) ∧
      (∀ orow ∈ outR.rows, ∃ rr ∈ sampleRight.rows,
        orow.geom = rr.geom ∧ orow.right_id = some rr.row_id)) :=
  ⟨rfl, join_preserves_input_geometries sampleLeft sampleRight .intersects rfl⟩

/-- Witness for C6 on concrete collections with differing coordinate
references. -/
theorem crs_mismatch_rejected_witness :
    sampleLeft.crs ≠ sampleOther.crs ∧
    (sjoin sampleLeft sampleOther "intersects" "left" = .error .crsMismatch ∧
     overlay sampleLeft sampleOther "union" = .error .crsMismatch) :=
  ⟨by decide,
    crs_mismatch_rejected sampleLeft sampleOther "intersects" "left" "union" (by decide)⟩

/-- Witness for C7: unknown join mode, unknown predicate name and unknown
overlay mode each rejected on concrete collections. -/
theorem unknown_modes_rejected_witness :
    sampleLeft.crs = sampleRight.crs ∧
    sjoin sampleLeft sampleRight "covers" "outer" = .error .invalidJoinMode ∧
    sjoin sampleLeft sampleRight "covers" "left" = .error .unsupportedPredicate ∧
    overlay sampleLeft sampleRight "clip" = .error .invalidOverlayMode := by
  refine ⟨rfl, ?_, ?_, ?_⟩
  · exact (unknown_modes_rejected sampleLeft sampleRight "covers" "outer" "clip" rfl).1
      (by decide)
  · exact (unknown_modes_rejected sampleLeft sampleRight "covers" "left" "clip" rfl).2.1
      ⟨.left, rfl⟩ (by decide)
  · exact (unknown_modes_rejected sampleLeft sampleRight "covers" "left" "clip" rfl).2.2
      (by decide)

/-- Witness for C3 on concrete collections. -/
theorem overlay_partition_law_witness :
    sampleLeft.crs = sampleRight.crs ∧
    (∃ oi od₁ od₂ ou,
      overlay sampleLeft sampleRight "intersection" = .ok oi ∧
      overlay sampleLeft sampleRight "difference" = .ok od₁ ∧
      overlay sampleRight sampleLeft "difference" = .ok od₂ ∧
      overlay sampleLeft sampleRight "union" = .ok ou ∧
      outGeom oi ∩ outGeom od₁ = ∅ ∧
      outGeom oi ∩ outGeom od₂ = ∅ ∧
      outGeom od₁ ∩ outGeom od₂ = ∅ ∧
      outGeom oi ∪ outGeom od₁ ∪ outGeom od₂ = outGeom ou ∧
      outGeom ou = collGeom sampleLeft ∪ collGeom sampleRight ∧
      ou.rows = oi.rows ++ od₁.rows ++ od₂.rows) :=
  ⟨rfl, overlay_partition_law sampleLeft sampleRight rfl⟩

/-- Witness for C4 on concrete collections. -/
theorem overlay_identity_covers_left_witness :
    sampleLeft.crs = sampleRight.crs ∧
    (∃ oid oi od,
      overlay sampleLeft sampleRight "identity" = .ok oid ∧
      overlay sampleLeft sampleRight "intersection" = .ok oi ∧
      overlay sampleLeft sampleRight "difference" = .ok od ∧
      oid.rows = oi.rows ++ od.rows ∧
      outGeom oid = collGeom sampleLeft ∧
      (∀ orow ∈ oid.rows,
        (orow.right_attrs ≠ none ∧ orow.geom ⊆ collGeom sampleRight) ∨
        (orow.right_attrs = none ∧ orow.geom ∩ collGeom sampleRight = ∅))) :=
  ⟨rfl, overlay_identity_covers_left sampleLeft sampleRight rfl⟩

/-- Witness for C5 on concrete collections. -/
theorem overlay_intersection_symmetric_difference_not_witness :
    sampleLeft.crs = sampleRight.crs ∧
    ((∃ o₁ o₂, overlay sampleLeft sampleRight "intersection" = .ok o₁ ∧
      overlay sampleRight sampleLeft "intersection" = .ok o₂ ∧
      (↑(o₁.rows.map swapSides) : Multiset OutRow) = (↑o₂.rows : Multiset OutRow)) ∧
    (∃ a' b' : GeometryCollection, a'.crs = b'.crs ∧
      overlay a' b' "difference" ≠ overlay b' a' "difference")) :=
  ⟨rfl, overlay_intersection_symmetric_difference_not sampleLeft sampleRight rfl⟩

end GeoPandas
